import Mathlib

/-!
Verification of the shengji wasm boundary (`src/frontend/shengji-wasm/src/lib.rs`).

The file under `src/` is the request/response boundary of the rules engine.
The core crate (`shengji_core`: cards, trumps, tricks, bidding, scoring) is not
part of the sources, so its types and operations are either modelled from the
specification (card model, trick-format engine, play-legality checker) or kept
as explicit function parameters of the boundary embeddings (bidding, scoring),
as noted on each definition.
-/

namespace Shengji

/-- Modelled from the spec: the four card suits (§3, Card). -/
inductive Suit
  | clubs
  | diamonds
  | hearts
  | spades
deriving DecidableEq, Repr

/-- Modelled from the spec (§3): a card is a rank (2–14) plus a suit, or one
of two joker variants. -/
inductive Card
  | suited (s : Suit) (r : Nat)
  | smallJoker
  | bigJoker
deriving DecidableEq, Repr

/-- Modelled from the spec (§3, Trump / Glossary): the suit a card counts as
once trump is applied; trump cards collapse to one synthetic trump suit. -/
inductive EffectiveSuit
  | clubs
  | diamonds
  | hearts
  | spades
  | trump
deriving DecidableEq, Repr

/-- Modelled from the spec (§3): either "no trump" (jokers, and optionally a
trump rank, still count as trump), or a trump suit together with a trump
rank. -/
inductive Trump
  | noTrump (rank : Option Nat)
  | standard (suit : Suit) (rank : Nat)
deriving DecidableEq, Repr

/-- The synthetic suit of a plain suit. -/
def Suit.toEffective : Suit → EffectiveSuit
  | .clubs => .clubs
  | .diamonds => .diamonds
  | .hearts => .hearts
  | .spades => .spades

/-- Modelled from the spec (§3, Trump): `effective_suit(card)` — jokers and
trump-rank/trump-suit cards map to the synthetic trump suit, every other card
keeps its own suit. -/
def Trump.effective_suit : Trump → Card → EffectiveSuit
  | _, .smallJoker => .trump
  | _, .bigJoker => .trump
  | .noTrump none, .suited s _ => s.toEffective
  | .noTrump (some tr), .suited s r => if r = tr then .trump else s.toEffective
  | .standard ts tr, .suited s r =>
      if r = tr ∨ s = ts then .trump else s.toEffective

def Suit.idx : Suit → Nat
  | .clubs => 0
  | .diamonds => 1
  | .hearts => 2
  | .spades => 3

def EffectiveSuit.idx : EffectiveSuit → Nat
  | .clubs => 0
  | .diamonds => 1
  | .hearts => 2
  | .spades => 3
  | .trump => 4

/-- An intrinsic code, injective over cards, used as the tiebreaker of the
trump-relative order. -/
def Card.code : Card → Nat
  | .suited s r => 4 * r + s.idx
  | .smallJoker => 60
  | .bigJoker => 61

/-- Modelled from the spec (§3, Trump / invariant in §3): the sort key of the
strict total order `Trump.compare`; cards are ordered primarily by effective
suit, with an injective intrinsic code breaking all remaining ties, so no two
distinct cards compare equal. -/
def Trump.cardKey (t : Trump) (c : Card) : Nat :=
  64 * (t.effective_suit c).idx + c.code

/-- Modelled from the spec (§3, Trump): `compare(a, b)`, a strict order usable
for sorting within a trick. -/
def Trump.compare (t : Trump) (a b : Card) : Ordering :=
  Ord.compare (t.cardKey a) (t.cardKey b)

/-! ### sort_and_group_cards (lib.rs lines 222–262) -/

/-- Request of `sort_and_group_cards` (lib.rs lines 222–226). -/
structure SortAndGroupCardsRequest where
  trump : Trump
  cards : List Card

/-- One suit group of the response (lib.rs lines 233–237). -/
structure SuitGroup where
  suit : EffectiveSuit
  cards : List Card
deriving DecidableEq, Repr

/-- Response of `sort_and_group_cards` (lib.rs lines 228–231). -/
structure SortAndGroupCardsResponse where
  results : List SuitGroup
deriving DecidableEq, Repr

/-- `cards.sort_by(|a, b| trump.compare(*a, *b))` (lib.rs line 244): a stable
sort by the trump-relative comparison. -/
def sortCards (t : Trump) (cards : List Card) : List Card :=
  cards.mergeSort fun a b => decide (t.cardKey a ≤ t.cardKey b)

/-- The grouping loop of `sort_and_group_cards` (lib.rs lines 246–259): walk
the sorted cards, pushing each card onto the adjacent group of the same
effective suit, opening a new group whenever the suit changes. (The source
folds from the left comparing with the last group; chunking a list into
maximal adjacent equal-suit runs is direction-independent, so the structural
recursion below produces the same groups.) -/
def groupCards (t : Trump) : List Card → List SuitGroup
  | [] => []
  | c :: cs =>
    match groupCards t cs with
    | [] => [⟨t.effective_suit c, [c]⟩]
    | g :: gs =>
      if t.effective_suit c = g.suit then ⟨g.suit, c :: g.cards⟩ :: gs
      else ⟨t.effective_suit c, [c]⟩ :: g :: gs

/-- `sort_and_group_cards` (lib.rs lines 239–262), after deserialization. -/
def sort_and_group_cards (req : SortAndGroupCardsRequest) : SortAndGroupCardsResponse :=
  { results := groupCards req.trump (sortCards req.trump req.cards) }

/-! ### Trick-format engine, modelled from the spec (§3, §4.3)

`shengji_core::trick` is not among the sources; the shapes and operations
below are modelled from the spec: a `UnitLike` is the shape of a unit
abstracted from its cards (single, pair, or tractor: a run of `len`
consecutive ranks each taken with multiplicity `mult`); a `TrickFormat` is the
ordered sequence of shapes of the leading play, tagged with the trump and the
effective suit it was led in. -/

/-- Modelled from the spec (§3, UnitLike / §4.1): the shape of a unit — the
multiplicity of each rank and the number of consecutive ranks. A single is
`⟨1, 1⟩`, a pair `⟨2, 1⟩`, a tractor of two pairs `⟨2, 2⟩`. -/
structure UnitLike where
  mult : Nat
  len : Nat
deriving DecidableEq, Repr

/-- The number of cards a shape occupies. -/
def UnitLike.size (u : UnitLike) : Nat := u.mult * u.len

/-- The number of cards an ordered sequence of shapes occupies. -/
def formatSize (f : List UnitLike) : Nat := (f.map UnitLike.size).sum

/-- Modelled from the spec (§3, TrickDrawPolicy): the policy controlling which
multiplicities may be swept into tractors or substituted. -/
inductive TrickDrawPolicy
  | noProtections
  | longerTuplesProtected
  | noFormatBasedDraw
deriving DecidableEq, Repr

/-- Modelled from the spec (§3, TrickFormat): the shape of the leading play —
an ordered sequence of `UnitLike` values, tagged with the trump and the
effective suit they were led in. -/
structure TrickFormat where
  trump : Trump
  suit : EffectiveSuit
  units : List UnitLike
deriving DecidableEq, Repr

/-- The total number of cards of a trick format. -/
def TrickFormat.size (tf : TrickFormat) : Nat := formatSize tf.units

/-- The ordered positive compositions of `n`, the whole of `n` first: the ways
of splitting a run of length `n` into consecutive sub-runs. -/
def compositions (n : Nat) : List (List Nat) :=
  if n = 0 then [[]]
  else
    (List.range n).attach.flatMap fun i =>
      (compositions i.1).map fun rest => (n - i.1) :: rest
termination_by n
decreasing_by exact List.mem_range.mp i.2

/-- Modelled from the spec (§4.3): the breakdowns of one led shape a draw
policy permits. Under `noFormatBasedDraw` a shape may only be matched as led;
under the permissive policies a tractor may also be matched by any split of
its run into shorter tractors and tuples of the same multiplicity (e.g. a led
tractor of two pairs may be matched by two independent pairs), the full shape
coming first. -/
def unitBreakdowns (policy : TrickDrawPolicy) (u : UnitLike) : List (List UnitLike) :=
  match policy with
  | .noFormatBasedDraw => [[u]]
  | _ => (compositions u.len).map fun parts => parts.map fun l => UnitLike.mk u.mult l

/-- All ways of drawing one choice from each list of options, concatenated in
order. -/
def listProduct : List (List (List UnitLike)) → List (List UnitLike)
  | [] => [[]]
  | options :: rest => options.flatMap fun o => (listProduct rest).map fun d => o ++ d

/-- Modelled from the spec (§4.3): `decomposition(trick_format, draw_policy)`
— every ordered unit-breakdown of the fixed format that the draw policy
permits, the format itself first. -/
def decomposition (tf : TrickFormat) (policy : TrickDrawPolicy) : List (List UnitLike) :=
  listProduct (tf.units.map (unitBreakdowns policy))

/-- The rank-adjacency used by tractor runs: the next consecutive card. -/
def nextCard : Card → Option Card
  | .suited s r => if r < 14 then some (.suited s (r + 1)) else none
  | .smallJoker => some .bigJoker
  | .bigJoker => none

/-- The run of `l` consecutive cards starting at `c`, when it exists. -/
def runFrom : Card → Nat → Option (List Card)
  | _, 0 => some []
  | c, 1 => some [c]
  | c, l + 2 =>
    match nextCard c with
    | none => none
    | some c' => (runFrom c' (l + 1)).map fun run => c :: run

/-- Whether consecutive entries of the list are rank-adjacent. -/
def isRun : List Card → Bool
  | [] => true
  | [_] => true
  | a :: b :: rest => decide (nextCard a = some b) && isRun (b :: rest)

/-- Modelled from the spec (§4.3, §3 TrickDrawPolicy): whether a candidate
unit — a list of `(card, count)` entries — satisfies the shape `u` against the
available cards: it has `u.len` pairwise-distinct rank-adjacent cards, each
taken with multiplicity `u.mult` and available that many times; under
`longerTuplesProtected` a card held as a longer tuple is not eligible for a
shorter requirement. -/
def validUnit (policy : TrickDrawPolicy) (cards : List Card) (u : UnitLike)
    (unit : List (Card × Nat)) : Bool :=
  decide (unit.length = u.len) && decide (0 < u.mult) &&
    decide (unit.map Prod.fst).Nodup && isRun (unit.map Prod.fst) &&
    unit.all fun p =>
      decide (p.2 = u.mult) && decide (u.mult ≤ cards.count p.1) &&
        match policy with
        | .longerTuplesProtected => decide (cards.count p.1 = u.mult)
        | _ => true

/-- All ways of drawing one unit of shape `u` from the available cards: runs
of length `u.len` started at each distinct available card, kept when they
satisfy the shape. -/
def unitOptions (policy : TrickDrawPolicy) (cards : List Card) (u : UnitLike) :
    List (List (Card × Nat)) :=
  (cards.dedup.filterMap fun c =>
      (runFrom c u.len).map fun run => run.map fun d => (d, u.mult)).filter
    (validUnit policy cards u)

/-- Remove `n` copies of `c`. -/
def removeN (cards : List Card) (c : Card) : Nat → List Card
  | 0 => cards
  | n + 1 => removeN (cards.erase c) c n

/-- Remove the cards of a drawn unit. -/
def removeUnit (cards : List Card) (unit : List (Card × Nat)) : List Card :=
  unit.foldl (fun cs p => removeN cs p.1 p.2) cards

/-- Modelled from the spec (§4.3): `check_play(trump, available_cards,
decomposition, draw_policy)` — the satisfying groupings: every way of drawing,
unit after unit, the shapes of the decomposition from the given same-suit
cards (possibly none, which is not an error). -/
def check_play (t : Trump) (cards : List Card) (format : List UnitLike)
    (policy : TrickDrawPolicy) : List (List (List (Card × Nat))) :=
  match format with
  | [] => [[]]
  | u :: rest =>
    (unitOptions policy cards u).flatMap fun s =>
      (check_play t (removeUnit cards s) rest policy).map fun g => s :: g

/-- The cards of one drawn unit, each repeated by its count (mirrors the
`flat_map(repeat ... take)` of lib.rs lines 132–134). -/
def flattenUnit (unit : List (Card × Nat)) : List Card :=
  unit.flatMap fun p => List.replicate p.2 p.1

/-- The cards of a grouping, each repeated by its count (lib.rs lines
129–136). -/
def flattenGrouping (g : List (List (Card × Nat))) : List Card :=
  g.flatMap flattenUnit

/-- Modelled from the spec (§4.1): `multi_description` — a stable,
human-readable label of a sequence of shapes, deterministic given the input
order. -/
def multi_description (format : List UnitLike) : String :=
  String.intercalate ", " (format.map fun u => toString u.mult ++ "x" ++ toString u.len)

/-! ### Hands, the play-legality checker, and the decompose / can-play
boundary (lib.rs lines 78–178) -/

/-- Player identifiers are lightweight ids (spec §3). -/
abbrev PlayerID := Nat

/-- Modelled from the spec (§3, Hands): a mapping from player identifier to a
multiset of cards, each card annotated with its remaining count. -/
structure Hands where
  hands : List (PlayerID × List (Card × Nat))
deriving DecidableEq, Repr

/-- `hands.get(player_id)` — fails when the player is not present (spec §7,
domain violation). -/
def Hands.get (h : Hands) (id : PlayerID) : Except String (List (Card × Nat)) :=
  match h.hands.lookup id with
  | some hand => .ok hand
  | none => .error "player not found in hands"

/-- The individual cards of a hand, each entry expanded by its count. -/
def expandHand (hand : List (Card × Nat)) : List Card :=
  hand.flatMap fun p => List.replicate p.2 p.1

/-- The cards of the hand whose effective suit under the format's trump is
the format's led suit, expanded by count — the `available_cards` filter of
lib.rs lines 108–113, also used by the legality checker (spec §4.4). -/
def sameSuitCards (tf : TrickFormat) (hand : List (Card × Nat)) : List Card :=
  (hand.filter fun p => decide (tf.trump.effective_suit p.1 = tf.suit)).flatMap
    fun p => List.replicate p.2 p.1

/-- Whether `a` is a sub-multiset of `b` (count-wise containment). -/
def isSubMS (a b : List Card) : Bool :=
  a.all fun c => decide (a.count c ≤ b.count c)

/-- Whether two card lists are equal as multisets. -/
def msEq (a b : List Card) : Bool :=
  isSubMS a b && isSubMS b a

/-- Modelled from the spec (§3, Trick): the state of an in-progress trick that
the legality check reads — the trump and, once a play has led, the committed
trick format. Leading is the `none` case. -/
structure Trick where
  trump : Trump
  format : Option TrickFormat
deriving DecidableEq, Repr

/-- Modelled from the spec (§4.4): `Trick::can_play_cards` — (a) the proposed
cards must be a sub-multiset of the player's hand; (b) if following, the
proposal must have the led size and either match one of the policy's
decompositions of the format out of the player's same-suit cards, or — when
the player holds strictly fewer same-suit cards than required — exhaust the
same-suit cards; (c) if leading, any viable grouping is acceptable, and every
non-empty card set has one (§4.2 rejects no input). The failure reason is the
error message. -/
def Trick.can_play_cards (trick : Trick) (id : PlayerID) (hands : Hands)
    (cards : List Card) (policy : TrickDrawPolicy) : Except String Unit := do
  let hand ← hands.get id
  if !isSubMS cards (expandHand hand) then
    .error "insufficient cards in hand"
  else
    match trick.format with
    | none =>
      if cards.isEmpty then .error "cannot lead no cards" else .ok ()
    | some tf =>
      let sameSuit := sameSuitCards tf hand
      if cards.length = tf.size then
        if tf.size ≤ sameSuit.length then
          if (decomposition tf policy).any
              (fun d => (check_play tf.trump sameSuit d policy).any
                fun g => msEq (flattenGrouping g) cards) then
            .ok ()
          else .error "wrong shape"
        else
          if isSubMS sameSuit cards then .ok ()
          else .error "must play all cards in the led suit"
      else .error "wrong number of cards"

/-- Request of `decompose_trick_format` (lib.rs lines 78–84). -/
structure DecomposeTrickFormatRequest where
  trick_format : TrickFormat
  hands : Hands
  player_id : PlayerID
  trick_draw_policy : TrickDrawPolicy

/-- One result of `decompose_trick_format` (lib.rs lines 91–96). -/
structure DecomposedTrickFormat where
  format : List UnitLike
  description : String
  playable : List Card
deriving DecidableEq, Repr

/-- Response of `decompose_trick_format` (lib.rs lines 86–89). -/
structure DecomposeTrickFormatResponse where
  results : List DecomposedTrickFormat
deriving DecidableEq, Repr

/-- `decompose_trick_format` (lib.rs lines 98–147), after deserialization:
filter the player's hand to the led effective suit, and for each decomposition
of the format surface its shape, description, and the cards of the first
satisfying grouping found by `check_play` (an empty list when there is
none). -/
def decompose_trick_format (req : DecomposeTrickFormatRequest) :
    Except String DecomposeTrickFormatResponse := do
  let hand ← req.hands.get req.player_id
  let available_cards := sameSuitCards req.trick_format hand
  .ok
    { results :=
        (decomposition req.trick_format req.trick_draw_policy).map fun format =>
          { format := format
            description := multi_description format
            playable :=
              match (check_play req.trick_format.trump available_cards format
                  req.trick_draw_policy).head? with
              | some units => units.flatMap fun u => u.flatMap fun p => List.replicate p.2 p.1
              | none => [] } }

/-- Request of `can_play_cards` (lib.rs lines 149–156). -/
structure CanPlayCardsRequest where
  trick : Trick
  id : PlayerID
  hands : Hands
  cards : List Card
  trick_draw_policy : TrickDrawPolicy

/-- Response of `can_play_cards` (lib.rs lines 158–161): a single boolean. -/
structure CanPlayCardsResponse where
  playable : Bool
deriving DecidableEq, Repr

/-- `can_play_cards` (lib.rs lines 163–178), after deserialization: surface
only whether the core legality check succeeded. -/
def can_play_cards_wasm (req : CanPlayCardsRequest) : CanPlayCardsResponse :=
  { playable :=
      (req.trick.can_play_cards req.id req.hands req.cards req.trick_draw_policy).isOk }

/-! ### find_valid_bids (lib.rs lines 180–220)

The bidding engine (`Bid::valid_bids`) lives in the core crate, outside the
sources; the boundary behaviour is proved for an arbitrary core function,
passed as an explicit parameter. -/

/-- Modelled from the spec (§3, Bid): a player's claim — the bid cards and
their count — made during the bidding phase. -/
structure Bid where
  id : PlayerID
  card : Card
  count : Nat
  epoch : Nat
deriving DecidableEq, Repr

/-- Modelled from the spec (§3): whether later bids must strictly exceed
earlier ones. -/
inductive BidPolicy
  | strictlyIncreasing
  | equalOrIncreasing
deriving DecidableEq, Repr

/-- Modelled from the spec (§3): whether a player may reinforce an earlier own
bid. -/
inductive BidReinforcementPolicy
  | reinforceWhileWinning
  | reinforceWhileEquivalent
  | noReinforcement
deriving DecidableEq, Repr

/-- Modelled from the spec (§3): whether jokers may be used to bid. -/
inductive JokerBidPolicy
  | bothTwoOrMore
  | bothNumDecks
  | disabled
deriving DecidableEq, Repr

/-- Modelled from the spec (§3, Player): a lightweight identifier with
bid-relevant metadata. -/
structure Player where
  id : PlayerID
  level : Nat
deriving DecidableEq, Repr

/-- Request of `find_valid_bids` (lib.rs lines 180–192). -/
structure FindValidBidsRequest where
  id : PlayerID
  bids : List Bid
  hands : Hands
  players : List Player
  landlord : Option PlayerID
  epoch : Nat
  bid_policy : BidPolicy
  bid_reinforcement_policy : BidReinforcementPolicy
  joker_bid_policy : JokerBidPolicy
  num_decks : Nat

/-- Response of `find_valid_bids` (lib.rs lines 194–197). -/
structure FindValidBidsResult where
  results : List Bid
deriving DecidableEq, Repr

/-- `find_valid_bids` (lib.rs lines 199–220), after deserialization:
`Bid::valid_bids(...).unwrap_or_default()` — the core enumeration is an
explicit parameter, and whatever it does, its failure is replaced by the empty
list and the operation succeeds. -/
def find_valid_bids
    (valid_bids : FindValidBidsRequest → Except String (List Bid))
    (req : FindValidBidsRequest) : Except String FindValidBidsResult :=
  .ok
    { results :=
        match valid_bids req with
        | .ok bs => bs
        | .error _ => [] }

/-! ### Scoring and deck boundary (lib.rs lines 264–337)

The scoring engine (`explain_level_deltas`, `GameScoringParameters::step_size`)
lives in the core crate, outside the sources; the boundary behaviour is proved
for arbitrary core functions, passed as explicit parameters. The deck model is
from the spec. -/

/-- Modelled from the spec (§3, Deck): one physical deck's card set; `len` is
its card count and `points` its total point value (5s worth 5, 10s and kings
worth 10). -/
structure Deck where
  cards : List Card
deriving DecidableEq, Repr

/-- The number of cards of a deck. -/
def Deck.len (d : Deck) : Nat := d.cards.length

/-- Modelled from the spec (§3, Deck): the point value of one card. -/
def cardPoints : Card → Int
  | .suited _ 5 => 5
  | .suited _ 10 => 10
  | .suited _ 13 => 10
  | _ => 0

/-- Modelled from the spec (§3, Deck): `Deck.points()`, the total point value
contained in the deck. -/
def Deck.points (d : Deck) : Int := (d.cards.map cardPoints).sum

/-- A standard 54-card deck: ranks 2–14 of the four suits plus both jokers. -/
def standardDeck : Deck :=
  ⟨((List.range' 2 13).flatMap fun r =>
      [Card.suited .clubs r, Card.suited .diamonds r,
        Card.suited .hearts r, Card.suited .spades r]) ++
    [Card.smallJoker, Card.bigJoker]⟩

/-- Modelled from the spec (§3): configuration of point thresholds, step size,
and team-size adjustments. Only threaded through the boundary. -/
structure GameScoringParameters where
  num_points_per_deck : Nat
  deadzone_size : Nat
deriving DecidableEq, Repr

/-- Modelled from the spec (§3, GameScoreResult): who wins and by how many
levels. Only threaded through the boundary. -/
structure GameScoreResult where
  landlord_won : Bool
  level_delta : Int
deriving DecidableEq, Repr

/-- Request of `explain_scoring` (lib.rs lines 286–291). -/
structure ExplainScoringRequest where
  decks : List Deck
  params : GameScoringParameters
  smaller_landlord_team_size : Bool

/-- One segment of the response (lib.rs lines 300–304). -/
structure ScoreSegment where
  point_threshold : Int
  results : GameScoreResult
deriving DecidableEq, Repr

/-- Response of `explain_scoring` (lib.rs lines 293–298). -/
structure ExplainScoringResponse where
  results : List ScoreSegment
  total_points : Int
  step_size : Nat
deriving DecidableEq, Repr

/-- `explain_scoring` (lib.rs lines 306–330), after deserialization: fail when
`explain_level_deltas` fails, then when `params.step_size(&decks)` fails;
otherwise answer the segments, the step size, and the summed deck points. The
two core computations are explicit parameters. -/
def explain_scoring
    (explain_level_deltas :
      GameScoringParameters → List Deck → Bool → Except String (List (Int × GameScoreResult)))
    (stepSize : GameScoringParameters → List Deck → Except String Nat)
    (req : ExplainScoringRequest) : Except String ExplainScoringResponse := do
  let deltas ← explain_level_deltas req.params req.decks req.smaller_landlord_team_size
  let ss ← stepSize req.params req.decks
  .ok
    { results := deltas.map fun pr => { point_threshold := pr.1, results := pr.2 }
      total_points := (req.decks.map Deck.points).sum
      step_size := ss }

/-- `compute_deck_len` (lib.rs lines 332–337), after deserialization: the sum
of the per-deck lengths. -/
def compute_deck_len (decks : List Deck) : Nat :=
  (decks.map Deck.len).sum

/-! ### zstd_decompress and the process-wide decoder slot (lib.rs lines
22–38 and 381–397)

The decompressor itself (`ruzstd`) is external; its three fallible steps are
explicit parameters. The mutex-guarded `ZSTD_DECODER` slot is modelled as
explicit state threaded through one sequentialized call: the function receives
the slot's content and returns the slot's content on return. `take().unwrap()`
on an empty slot is a panic, modelled as a distinguished error that leaves the
slot empty. -/

/-- One sequentialized call of `zstd_decompress` (lib.rs lines 381–397) over
the decoder slot, for an arbitrary decoder type `Dec`: take the decoder out of
the slot (panicking if the slot is empty), construct a streaming decoder
(consuming it), read everything, put the frame decoder back — but only on the
success path: both early error returns leave the slot empty. -/
def zstd_decompress {Dec : Type}
    (new_with_decoder : List Nat → Dec → Except String Dec)
    (read_to_end : Dec → Except String (List Nat × Dec))
    (utf8 : List Nat → Except String String)
    (slot : Option Dec) (req : List Nat) : Except String String × Option Dec :=
  match slot with
  | none => (.error "panicked at Option::unwrap on None", none)
  | some fd =>
    match new_with_decoder req fd with
    | .error _ => (.error "Failed to construct decoder", none)
    | .ok dec =>
      match read_to_end dec with
      | .error e => (.error ("Failed to decode data " ++ e), none)
      | .ok (v, inner) =>
        match utf8 v with
        | .error _ => (.error "Failed to parse utf-8", some inner)
        | .ok s => (.ok s, some inner)

/-! ## Concrete instances: a led single of clubs against a hand of two
clubs -/

/-- A led trick format: one single, led in clubs, no trump. -/
def sampleFormat : TrickFormat :=
  { trump := .noTrump none, suit := .clubs, units := [⟨1, 1⟩] }

/-- Player 0 holds the 3 and the 4 of clubs. -/
def sampleHand : List (Card × Nat) :=
  [(Card.suited .clubs 3, 1), (Card.suited .clubs 4, 1)]

def sampleHands : Hands := ⟨[(0, sampleHand)]⟩

def sampleDecomposeRequest : DecomposeTrickFormatRequest :=
  { trick_format := sampleFormat
    hands := sampleHands
    player_id := 0
    trick_draw_policy := .noFormatBasedDraw }

/-- The response of `decompose_trick_format` on `sampleDecomposeRequest`: one
decomposition (the single itself), whose surfaced `playable` is the first
satisfying grouping — the 3 of clubs. -/
def sampleDecomposeResponse : DecomposeTrickFormatResponse :=
  ⟨[{ format := [⟨1, 1⟩], description := "1x1", playable := [Card.suited .clubs 3] }]⟩

/-- A concrete bidding request. -/
def sampleBidsRequest : FindValidBidsRequest :=
  { id := 0
    bids := []
    hands := ⟨[]⟩
    players := []
    landlord := none
    epoch := 0
    bid_policy := .strictlyIncreasing
    bid_reinforcement_policy := .noReinforcement
    joker_bid_policy := .disabled
    num_decks := 2 }

/-- A concrete scoring request. -/
def sampleScoringRequest : ExplainScoringRequest :=
  { decks := [standardDeck]
    params := { num_points_per_deck := 100, deadzone_size := 0 }
    smaller_landlord_team_size := false }

/-- A request that fails because the player is absent from the hands. -/
def sampleCanPlayMissing : CanPlayCardsRequest :=
  { trick := { trump := .noTrump none, format := none }
    id := 5
    hands := ⟨[]⟩
    cards := []
    trick_draw_policy := .noProtections }

/-- A request that fails because the lead proposes no cards. -/
def sampleCanPlayEmptyLead : CanPlayCardsRequest :=
  { trick := { trump := .noTrump none, format := none }
    id := 0
    hands := ⟨[(0, [(Card.suited .clubs 3, 1)])]⟩
    cards := []
    trick_draw_policy := .noProtections }

/-! ## Lemmas about the sorting and grouping boundary -/

theorem groupCards_flatten (t : Trump) :
    ∀ l : List Card, (groupCards t l).flatMap SuitGroup.cards = l := by
  intro l
  induction l with
  | nil => rfl
  | cons c cs ih =>
    cases h : groupCards t cs with
    | nil =>
      rw [h] at ih
      simp only [List.flatMap_nil] at ih
      simp only [groupCards, h]
      simp [← ih]
    | cons g gs =>
      rw [h] at ih
      by_cases hs : t.effective_suit c = g.suit
      · simp only [groupCards, h, if_pos hs, List.flatMap_cons] at ih ⊢
        simp [← ih]
      · simp only [groupCards, h, if_neg hs, List.flatMap_cons] at ih ⊢
        simp [← ih]

theorem groupCards_groups_ok (t : Trump) :
    ∀ l : List Card,
      (∀ g ∈ groupCards t l, g.cards ≠ [] ∧ ∀ c ∈ g.cards, t.effective_suit c = g.suit) ∧
        (groupCards t l).Chain' (fun a b => a.suit ≠ b.suit) := by
  intro l
  induction l with
  | nil => simp [groupCards]
  | cons c cs ih =>
    obtain ⟨ihg, ihc⟩ := ih
    cases h : groupCards t cs with
    | nil =>
      simp [groupCards, h, List.chain'_singleton]
    | cons g gs =>
      rw [h] at ihg ihc
      by_cases hs : t.effective_suit c = g.suit
      · simp only [groupCards, h]
        rw [if_pos hs]
        constructor
        · intro g' hg'
          rcases List.mem_cons.mp hg' with h1 | h2
          · subst h1
            refine ⟨by simp, ?_⟩
            intro d hd
            rcases List.mem_cons.mp hd with h1 | h2
            · subst h1; exact hs
            · exact ((ihg g (List.mem_cons_self _ _)).2 d h2)
          · exact ihg g' (List.mem_cons_of_mem _ h2)
        · rw [List.chain'_cons'] at ihc ⊢
          exact ⟨ihc.1, ihc.2⟩
      · simp only [groupCards, h]
        rw [if_neg hs]
        constructor
        · intro g' hg'
          rcases List.mem_cons.mp hg' with h1 | h2
          · subst h1
            refine ⟨by simp, ?_⟩
            intro d hd
            rcases List.mem_cons.mp hd with h1 | h2
            · subst h1; rfl
            · simp at h2
          · exact ihg g' h2
        · rw [List.chain'_cons']
          refine ⟨?_, ihc⟩
          intro b hb
          simp only [List.head?_cons, Option.mem_def, Option.some.injEq] at hb
          subst hb
          simpa using hs

/-- C3: for every trump and card list, `sort_and_group_cards` returns groups
whose concatenated cards are exactly the input multiset sorted by
`trump.compare`, every group is non-empty, every card in a group has that
group's effective suit, and no two consecutive groups share an effective suit
(adjacent equal-suit runs are merged maximally). -/
theorem sort_and_group_cards_spec (req : SortAndGroupCardsRequest) :
    ((sort_and_group_cards req).results.flatMap SuitGroup.cards
        = sortCards req.trump req.cards) ∧
      (sortCards req.trump req.cards).Perm req.cards ∧
      (∀ g ∈ (sort_and_group_cards req).results,
        g.cards ≠ [] ∧ ∀ c ∈ g.cards, req.trump.effective_suit c = g.suit) ∧
      (sort_and_group_cards req).results.Chain' (fun a b => a.suit ≠ b.suit) := by
  refine ⟨groupCards_flatten _ _, List.mergeSort_perm _ _, ?_, ?_⟩
  · exact (groupCards_groups_ok req.trump (sortCards req.trump req.cards)).1
  · exact (groupCards_groups_ok req.trump (sortCards req.trump req.cards)).2

theorem sortCards_idem (t : Trump) (cards : List Card) :
    sortCards t (sortCards t cards) = sortCards t cards := by
  apply List.mergeSort_of_sorted
  apply List.sorted_mergeSort
  · intro a b c hab hbc
    simp only [decide_eq_true_eq] at hab hbc ⊢
    omega
  · intro a b
    rcases Nat.le_total (t.cardKey a) (t.cardKey b) with h | h <;> simp [h]

/-- C4: `sort_and_group_cards` is idempotent — applying it to the
concatenation of the cards of its own output groups, with the same trump,
yields exactly the same sequence of groups. -/
theorem sort_and_group_cards_idempotent (req : SortAndGroupCardsRequest) :
    sort_and_group_cards
        ⟨req.trump, (sort_and_group_cards req).results.flatMap SuitGroup.cards⟩
      = sort_and_group_cards req := by
  simp only [sort_and_group_cards]
  rw [groupCards_flatten, sortCards_idem]

/-! ## Lemmas about check_play: drawn groupings stay inside the given cards,
with the right multiplicities and sizes -/

theorem validUnit_facts {policy : TrickDrawPolicy} {cards : List Card} {u : UnitLike}
    {unit : List (Card × Nat)} (h : validUnit policy cards u unit = true) :
    unit.length = u.len ∧ 0 < u.mult ∧ (unit.map Prod.fst).Nodup ∧
      ∀ p ∈ unit, p.2 = u.mult ∧ u.mult ≤ cards.count p.1 := by
  simp only [validUnit, Bool.and_eq_true, decide_eq_true_eq, List.all_eq_true] at h
  refine ⟨h.1.1.1.1, h.1.1.1.2, h.1.1.2, fun p hp => ?_⟩
  have := h.2 p hp
  simp only [Bool.and_eq_true, decide_eq_true_eq] at this
  exact ⟨this.1.1, this.1.2⟩

theorem mem_unitOptions {policy : TrickDrawPolicy} {cards : List Card} {u : UnitLike}
    {s : List (Card × Nat)} (h : s ∈ unitOptions policy cards u) :
    validUnit policy cards u s = true :=
  (List.mem_filter.mp h).2

theorem mem_flattenUnit {unit : List (Card × Nat)} {c : Card} :
    c ∈ flattenUnit unit ↔ ∃ p ∈ unit, p.1 = c ∧ 0 < p.2 := by
  simp only [flattenUnit, List.mem_flatMap, List.mem_replicate]
  constructor
  · rintro ⟨p, hp, hne, rfl⟩
    exact ⟨p, hp, rfl, Nat.pos_of_ne_zero hne⟩
  · rintro ⟨p, hp, rfl, hpos⟩
    exact ⟨p, hp, Nat.pos_iff_ne_zero.mp hpos, rfl⟩

theorem count_flattenUnit_of_not_mem {unit : List (Card × Nat)} {c : Card}
    (hc : c ∉ unit.map Prod.fst) : (flattenUnit unit).count c = 0 := by
  rw [List.count_eq_zero]
  intro hmem
  obtain ⟨p, hp, rfl, -⟩ := mem_flattenUnit.mp hmem
  exact hc (List.mem_map.mpr ⟨p, hp, rfl⟩)

theorem count_flattenUnit_of_mem {unit : List (Card × Nat)} {c : Card} {k : Nat}
    (hnd : (unit.map Prod.fst).Nodup) (hc : (c, k) ∈ unit) :
    (flattenUnit unit).count c = k := by
  induction unit with
  | nil => cases hc
  | cons a rest ih =>
    simp only [List.map_cons, List.nodup_cons] at hnd
    rcases List.mem_cons.mp hc with h1 | h2
    · subst h1
      have h0 : (flattenUnit rest).count c = 0 :=
        count_flattenUnit_of_not_mem hnd.1
      simp only [flattenUnit, List.flatMap_cons, List.count_append,
        List.count_replicate, beq_self_eq_true, if_true]
      simp only [flattenUnit] at h0
      omega
    · have hne : a.1 ≠ c := by
        rintro rfl
        exact hnd.1 (List.mem_map.mpr ⟨(a.1, k), h2, rfl⟩)
      have := ih hnd.2 h2
      simp only [flattenUnit, List.flatMap_cons, List.count_append,
        List.count_replicate] at this ⊢
      simp only [beq_iff_eq, if_neg hne]
      omega

theorem count_removeN (cards : List Card) (c : Card) (n : Nat) (d : Card) :
    (removeN cards c n).count d =
      if d = c then cards.count d - n else cards.count d := by
  induction n generalizing cards with
  | zero =>
    by_cases h : d = c <;> simp [removeN, h]
  | succ n ih =>
    rw [removeN, ih]
    by_cases h : d = c
    · subst h
      rw [if_pos rfl, if_pos rfl, List.count_erase_self]
      omega
    · have : (cards.erase c).count d = cards.count d :=
        List.count_erase_of_ne h cards
      simp [h, this]

theorem count_removeUnit (unit : List (Card × Nat)) (cards : List Card) (d : Card) :
    (removeUnit cards unit).count d = cards.count d - (flattenUnit unit).count d := by
  induction unit generalizing cards with
  | nil => simp [removeUnit, flattenUnit]
  | cons a rest ih =>
    have step : removeUnit cards (a :: rest) = removeUnit (removeN cards a.1 a.2) rest := rfl
    rw [step, ih, count_removeN]
    simp only [flattenUnit, List.flatMap_cons, List.count_append, List.count_replicate,
      beq_iff_eq]
    by_cases h : d = a.1
    · subst h
      simp
      omega
    · have h' : a.1 ≠ d := fun he => h he.symm
      simp only [if_neg h, if_neg h']
      omega

theorem count_flattenUnit_le {policy : TrickDrawPolicy} {cards : List Card}
    {u : UnitLike} {s : List (Card × Nat)} (hv : validUnit policy cards u s = true)
    (c : Card) : (flattenUnit s).count c ≤ cards.count c := by
  obtain ⟨-, -, hnd, hall⟩ := validUnit_facts hv
  by_cases hc : c ∈ s.map Prod.fst
  · obtain ⟨p, hp, he⟩ := List.mem_map.mp hc
    obtain ⟨hm, hle⟩ := hall p hp
    have : (flattenUnit s).count c = p.2 := by
      apply count_flattenUnit_of_mem hnd
      have : p = (c, p.2) := by
        cases p
        simp only at he
        subst he
        rfl
      rw [← this]
      exact hp
    rw [this, hm]
    rw [he] at hle
    exact hle
  · rw [count_flattenUnit_of_not_mem hc]
    exact Nat.zero_le _

theorem check_play_count {t : Trump} {policy : TrickDrawPolicy} :
    ∀ (format : List UnitLike) (cards : List Card) (g : List (List (Card × Nat))),
      g ∈ check_play t cards format policy →
        ∀ c, (flattenGrouping g).count c ≤ cards.count c := by
  intro format
  induction format with
  | nil =>
    intro cards g hg c
    simp only [check_play, List.mem_singleton] at hg
    subst hg
    simp [flattenGrouping]
  | cons u rest ih =>
    intro cards g hg c
    simp only [check_play, List.mem_flatMap, List.mem_map] at hg
    obtain ⟨s, hs, g', hg', rfl⟩ := hg
    have hv := mem_unitOptions hs
    have h1 : (flattenUnit s).count c ≤ cards.count c := count_flattenUnit_le hv c
    have h2 := ih (removeUnit cards s) g' hg' c
    rw [count_removeUnit] at h2
    simp only [flattenGrouping, List.flatMap_cons, List.count_append]
    simp only [flattenGrouping] at h2
    omega

theorem mem_of_mem_check_play {t : Trump} {policy : TrickDrawPolicy}
    {format : List UnitLike} {cards : List Card} {g : List (List (Card × Nat))}
    (hg : g ∈ check_play t cards format policy) {c : Card}
    (hc : c ∈ flattenGrouping g) : c ∈ cards := by
  have := check_play_count format cards g hg c
  have hpos : 0 < (flattenGrouping g).count c := List.count_pos_iff.mpr hc
  exact List.count_pos_iff.mp (by omega)

theorem length_flattenUnit (unit : List (Card × Nat)) :
    (flattenUnit unit).length = (unit.map Prod.snd).sum := by
  simp [flattenUnit, List.length_flatMap, Function.comp_def]

theorem length_flattenUnit_of_valid {policy : TrickDrawPolicy} {cards : List Card}
    {u : UnitLike} {s : List (Card × Nat)} (hv : validUnit policy cards u s = true) :
    (flattenUnit s).length = u.size := by
  obtain ⟨hlen, -, -, hall⟩ := validUnit_facts hv
  rw [length_flattenUnit]
  rw [List.sum_eq_card_nsmul (s.map Prod.snd) u.mult]
  · simp [hlen, UnitLike.size, Nat.mul_comm]
  · intro x hx
    obtain ⟨p, hp, rfl⟩ := List.mem_map.mp hx
    exact (hall p hp).1

theorem check_play_length {t : Trump} {policy : TrickDrawPolicy} :
    ∀ (format : List UnitLike) (cards : List Card) (g : List (List (Card × Nat))),
      g ∈ check_play t cards format policy →
        (flattenGrouping g).length = formatSize format := by
  intro format
  induction format with
  | nil =>
    intro cards g hg
    simp only [check_play, List.mem_singleton] at hg
    subst hg
    simp [flattenGrouping, formatSize]
  | cons u rest ih =>
    intro cards g hg
    simp only [check_play, List.mem_flatMap, List.mem_map] at hg
    obtain ⟨s, hs, g', hg', rfl⟩ := hg
    simp only [flattenGrouping, List.flatMap_cons, List.length_append, formatSize,
      List.map_cons, List.sum_cons]
    have h1 := length_flattenUnit_of_valid (mem_unitOptions hs)
    have h2 := ih (removeUnit cards s) g' hg'
    simp only [flattenGrouping, formatSize] at h2
    omega

theorem compositions_sum (n : Nat) : ∀ parts ∈ compositions n, parts.sum = n := by
  induction n using Nat.strong_induction_on with
  | _ n ih =>
    intro parts hp
    rw [compositions] at hp
    by_cases h : n = 0
    · subst h
      simp at hp
      subst hp
      rfl
    · rw [if_neg h] at hp
      rw [List.mem_flatMap] at hp
      obtain ⟨⟨i, hi⟩, -, hp⟩ := hp
      rw [List.mem_map] at hp
      obtain ⟨rest, hrest, rfl⟩ := hp
      have hlt : i < n := List.mem_range.mp hi
      rw [List.sum_cons, ih i hlt rest hrest]
      show n - i + i = n
      omega

theorem unitBreakdowns_size {policy : TrickDrawPolicy} {u : UnitLike} :
    ∀ o ∈ unitBreakdowns policy u, formatSize o = u.size := by
  intro o ho
  match policy with
  | .noFormatBasedDraw =>
    simp only [unitBreakdowns, List.mem_singleton] at ho
    subst ho
    simp [formatSize]
  | .noProtections | .longerTuplesProtected =>
    simp only [unitBreakdowns, List.mem_map] at ho
    obtain ⟨parts, hparts, rfl⟩ := ho
    have hsum := compositions_sum u.len parts hparts
    simp only [formatSize, List.map_map]
    have : ∀ l : List Nat, ((l.map fun x => UnitLike.mk u.mult x).map UnitLike.size).sum
        = u.mult * l.sum := by
      intro l
      induction l with
      | nil => simp
      | cons a l ihl =>
        simp only [List.map_cons, List.sum_cons, ihl, UnitLike.size, Nat.mul_add]
    rw [show (UnitLike.size ∘ fun x => UnitLike.mk u.mult x)
        = fun x => u.mult * x from rfl]
    calc (parts.map fun x => u.mult * x).sum
        = ((parts.map fun x => UnitLike.mk u.mult x).map UnitLike.size).sum := by
          rw [List.map_map]
          rfl
      _ = u.mult * parts.sum := this parts
      _ = u.size := by rw [hsum]; rfl

theorem decomposition_size {policy : TrickDrawPolicy} :
    ∀ (us : List UnitLike) (d : List UnitLike),
      d ∈ listProduct (us.map (unitBreakdowns policy)) → formatSize d = formatSize us := by
  intro us
  induction us with
  | nil =>
    intro d hd
    simp only [List.map_nil, listProduct, List.mem_singleton] at hd
    subst hd
    rfl
  | cons u us ih =>
    intro d hd
    simp only [List.map_cons, listProduct, List.mem_flatMap, List.mem_map] at hd
    obtain ⟨o, ho, d', hd', rfl⟩ := hd
    simp only [formatSize, List.map_append, List.sum_append]
    have h1 := unitBreakdowns_size o ho
    have h2 := ih d' hd'
    simp only [formatSize] at h1 h2
    simp [h1, h2, List.map_cons, List.sum_cons]

theorem mem_decomposition_size {tf : TrickFormat} {policy : TrickDrawPolicy}
    {d : List UnitLike} (hd : d ∈ decomposition tf policy) :
    formatSize d = tf.size :=
  decomposition_size tf.units d hd

theorem count_sameSuit_le (tf : TrickFormat) (hand : List (Card × Nat)) (c : Card) :
    (sameSuitCards tf hand).count c ≤ (expandHand hand).count c := by
  induction hand with
  | nil => simp [sameSuitCards, expandHand]
  | cons p rest ih =>
    simp only [sameSuitCards, expandHand] at ih ⊢
    rw [List.filter_cons]
    by_cases hp : tf.trump.effective_suit p.1 = tf.suit
    · rw [if_pos (by simpa using hp)]
      simp only [List.flatMap_cons, List.count_append]
      omega
    · rw [if_neg (by simpa using hp)]
      simp only [List.flatMap_cons, List.count_append]
      omega

theorem length_le_of_counts (a b : List Card)
    (h : ∀ c, a.count c ≤ b.count c) : a.length ≤ b.length := by
  have hle : (a : Multiset Card) ≤ (b : Multiset Card) := by
    rw [Multiset.le_iff_count]
    intro c
    simpa using h c
  simpa using Multiset.card_le_card hle

theorem isSubMS_of_counts {a b : List Card} (h : ∀ c, a.count c ≤ b.count c) :
    isSubMS a b = true := by
  simp only [isSubMS, List.all_eq_true, decide_eq_true_eq]
  intro c _
  exact h c

theorem msEq_refl (a : List Card) : msEq a a = true := by
  simp [msEq, isSubMS_of_counts fun c => Nat.le_refl _]

/-- Unpacking a successful `decompose_trick_format` call: the player's hand
resolves and the results are the image of the decompositions. -/
theorem decompose_ok_unpack {req : DecomposeTrickFormatRequest}
    {resp : DecomposeTrickFormatResponse}
    (h : decompose_trick_format req = .ok resp) :
    ∃ hand, req.hands.get req.player_id = .ok hand ∧
      resp.results =
        (decomposition req.trick_format req.trick_draw_policy).map fun format =>
          { format := format
            description := multi_description format
            playable :=
              match (check_play req.trick_format.trump
                  (sameSuitCards req.trick_format hand) format
                  req.trick_draw_policy).head? with
              | some units => units.flatMap fun u => u.flatMap fun p => List.replicate p.2 p.1
              | none => [] } := by
  cases hget : req.hands.get req.player_id with
  | error e =>
    simp [decompose_trick_format, hget, Except.bind, Bind.bind] at h
  | ok hand =>
    refine ⟨hand, rfl, ?_⟩
    simp only [decompose_trick_format, hget, Except.bind, Bind.bind] at h
    injection h with h
    rw [← h]

theorem head_mem_of_head?_eq {α : Type} {l : List α} {a : α} (h : l.head? = some a) :
    a ∈ l := by
  cases l with
  | nil => cases h
  | cons x xs =>
    simp only [List.head?_cons, Option.some.injEq] at h
    subst h
    exact List.mem_cons_self _ _

/-- C5: in every successful `decompose_trick_format` response, every card
appearing in a `playable` field has the format's led effective suit under the
format's trump — cards of other suits never appear. -/
theorem decompose_playable_same_suit
    (req : DecomposeTrickFormatRequest) (resp : DecomposeTrickFormatResponse)
    (h : decompose_trick_format req = .ok resp)
    (r : DecomposedTrickFormat) (hr : r ∈ resp.results)
    (c : Card) (hc : c ∈ r.playable) :
    req.trick_format.trump.effective_suit c = req.trick_format.suit := by
  obtain ⟨hand, hget, hres⟩ := decompose_ok_unpack h
  rw [hres] at hr
  obtain ⟨d, hd, rfl⟩ := List.mem_map.mp hr
  dsimp only at hc
  cases hcp : (check_play req.trick_format.trump (sameSuitCards req.trick_format hand) d
      req.trick_draw_policy).head? with
  | none =>
    rw [hcp] at hc
    cases hc
  | some units =>
    rw [hcp] at hc
    have hmem : units ∈ check_play req.trick_format.trump
        (sameSuitCards req.trick_format hand) d req.trick_draw_policy :=
      head_mem_of_head?_eq hcp
    have hflat : c ∈ flattenGrouping units := by
      simpa [flattenGrouping, flattenUnit] using hc
    have hin := mem_of_mem_check_play hmem hflat
    simp only [sameSuitCards, List.mem_flatMap] at hin
    obtain ⟨p, hp, hrep⟩ := hin
    obtain ⟨-, hps⟩ := List.mem_filter.mp hp
    rw [List.eq_of_mem_replicate hrep]
    exact of_decide_eq_true hps

/-- C9: in a successful `decompose_trick_format` response, the results line up
one-to-one with the format's decompositions; each result's `playable` is the
cards of the *first* grouping found by `check_play` for that decomposition,
each card repeated by its count, and is the empty list — not an error — when
no same-suit grouping satisfies it; groupings beyond the first are never
surfaced. -/
theorem decompose_playable_first_grouping
    (req : DecomposeTrickFormatRequest) (resp : DecomposeTrickFormatResponse)
    (hand : List (Card × Nat)) (hget : req.hands.get req.player_id = .ok hand)
    (h : decompose_trick_format req = .ok resp) :
    List.Forall₂
      (fun (r : DecomposedTrickFormat) (d : List UnitLike) =>
        r.format = d ∧
          (check_play req.trick_format.trump (sameSuitCards req.trick_format hand) d
              req.trick_draw_policy = [] → r.playable = []) ∧
          ∀ g gs, check_play req.trick_format.trump (sameSuitCards req.trick_format hand) d
              req.trick_draw_policy = g :: gs → r.playable = flattenGrouping g)
      resp.results (decomposition req.trick_format req.trick_draw_policy) := by
  obtain ⟨hand', hget', hres⟩ := decompose_ok_unpack h
  rw [hget] at hget'
  injection hget' with hh
  subst hh
  rw [hres]
  rw [List.forall₂_map_left_iff, List.forall₂_same]
  intro d hd
  refine ⟨rfl, ?_, ?_⟩
  · intro hemp
    dsimp only
    rw [hemp]
    rfl
  · intro g gs hcp
    dsimp only
    rw [hcp]
    rfl

/-- C1 (amended): every non-empty card multiset reported in a `playable`
field of a successful `decompose_trick_format` result is accepted by
`can_play_cards` for the same trick, hand, and draw policy. -/
theorem decompose_playable_accepted
    (req : DecomposeTrickFormatRequest) (resp : DecomposeTrickFormatResponse)
    (h : decompose_trick_format req = .ok resp)
    (r : DecomposedTrickFormat) (hr : r ∈ resp.results) (hne : r.playable ≠ []) :
    can_play_cards_wasm
        { trick := { trump := req.trick_format.trump, format := some req.trick_format }
          id := req.player_id
          hands := req.hands
          cards := r.playable
          trick_draw_policy := req.trick_draw_policy } = ⟨true⟩ := by
  obtain ⟨hand, hget, hres⟩ := decompose_ok_unpack h
  rw [hres] at hr
  obtain ⟨d, hd, rfl⟩ := List.mem_map.mp hr
  cases hcp : (check_play req.trick_format.trump (sameSuitCards req.trick_format hand) d
      req.trick_draw_policy).head? with
  | none =>
    exact absurd (by dsimp only; rw [hcp]) hne
  | some units =>
    have hmem : units ∈ check_play req.trick_format.trump
        (sameSuitCards req.trick_format hand) d req.trick_draw_policy :=
      head_mem_of_head?_eq hcp
    dsimp only
    have hplay : (units.flatMap fun u => u.flatMap fun p => List.replicate p.2 p.1)
        = flattenGrouping units := rfl
    rw [hplay]
    have hcount : ∀ c, (flattenGrouping units).count c ≤ (expandHand hand).count c :=
      fun c =>
        Nat.le_trans (check_play_count d _ units hmem c)
          (count_sameSuit_le req.trick_format hand c)
    have hsub : isSubMS (flattenGrouping units) (expandHand hand) = true :=
      isSubMS_of_counts hcount
    have hlen : (flattenGrouping units).length = req.trick_format.size := by
      rw [check_play_length d _ units hmem]
      exact mem_decomposition_size hd
    have hsslen : req.trick_format.size ≤ (sameSuitCards req.trick_format hand).length := by
      rw [← hlen]
      exact length_le_of_counts _ _ fun c => check_play_count d _ units hmem c
    have hany : (decomposition req.trick_format req.trick_draw_policy).any
        (fun d' => (check_play req.trick_format.trump
            (sameSuitCards req.trick_format hand) d' req.trick_draw_policy).any
          fun g => msEq (flattenGrouping g) (flattenGrouping units)) = true := by
      rw [List.any_eq_true]
      refine ⟨d, hd, ?_⟩
      rw [List.any_eq_true]
      exact ⟨units, hmem, msEq_refl _⟩
    have hcore : Trick.can_play_cards
        { trump := req.trick_format.trump, format := some req.trick_format }
        req.player_id req.hands (flattenGrouping units) req.trick_draw_policy
        = .ok () := by
      rw [Trick.can_play_cards]
      simp only [hget, Except.bind, Bind.bind, hsub, Bool.not_true, Bool.false_eq_true,
        if_false]
      rw [if_pos hlen, if_pos hsslen, if_pos hany]
    simp only [can_play_cards_wasm, hcore]
    rfl

theorem decompose_playable_accepted_witness :
    can_play_cards_wasm
        { trick := { trump := sampleFormat.trump, format := some sampleFormat }
          id := 0
          hands := sampleHands
          cards := [Card.suited .clubs 3]
          trick_draw_policy := .noFormatBasedDraw } = ⟨true⟩ :=
  decompose_playable_accepted sampleDecomposeRequest sampleDecomposeResponse rfl
    { format := [⟨1, 1⟩], description := "1x1", playable := [Card.suited .clubs 3] }
    (by decide) (by decide)

/-- C1 as stated is false: `can_play_cards` accepts the 4 of clubs — it
matches a satisfying grouping of the decomposition — but the 4 of clubs
appears in no result's `playable` field, which surfaces only the first
grouping (the 3 of clubs). -/
theorem can_play_accepts_unsurfaced_play :
    (can_play_cards_wasm
        { trick := { trump := sampleFormat.trump, format := some sampleFormat }
          id := 0
          hands := sampleHands
          cards := [Card.suited .clubs 4]
          trick_draw_policy := .noFormatBasedDraw }).playable = true ∧
      ((decompose_trick_format sampleDecomposeRequest).map fun resp =>
          resp.results.all fun r => !msEq r.playable [Card.suited .clubs 4])
        = .ok true :=
  ⟨rfl, rfl⟩

theorem decompose_playable_same_suit_witness :
    sampleFormat.trump.effective_suit (Card.suited .clubs 3) = sampleFormat.suit :=
  decompose_playable_same_suit sampleDecomposeRequest sampleDecomposeResponse rfl
    { format := [⟨1, 1⟩], description := "1x1", playable := [Card.suited .clubs 3] }
    (by decide) (Card.suited .clubs 3) (by decide)

theorem decompose_playable_first_grouping_witness :
    sampleDecomposeResponse.results.length
      = (decomposition sampleFormat TrickDrawPolicy.noFormatBasedDraw).length :=
  (decompose_playable_first_grouping sampleDecomposeRequest sampleDecomposeResponse
    sampleHand rfl rfl).length_eq

/-! ## The deck-length, bidding, scoring, can-play and decompressor
boundaries -/

/-- C8: `compute_deck_len` returns the sum of the lengths of the decks of the
request; for two standard 54-card decks (jokers included) it returns 108. -/
theorem compute_deck_len_spec :
    (∀ decks : List Deck,
        compute_deck_len decks = (decks.map fun d => d.cards.length).sum) ∧
      compute_deck_len [standardDeck, standardDeck] = 108 := by
  constructor
  · intro decks
    rfl
  · rfl

/-- C2: for every deserializable request, `find_valid_bids` never returns an
error — whatever the core enumeration does: the response is a success, and
when no bid is legal or the core rejects the bid phase, its results list is
empty. -/
theorem find_valid_bids_total
    (valid_bids : FindValidBidsRequest → Except String (List Bid))
    (req : FindValidBidsRequest) :
    (∃ res, find_valid_bids valid_bids req = .ok res) ∧
      (∀ e, valid_bids req = .error e →
        find_valid_bids valid_bids req = .ok ⟨[]⟩) ∧
      (valid_bids req = .ok [] → find_valid_bids valid_bids req = .ok ⟨[]⟩) := by
  refine ⟨⟨_, rfl⟩, ?_, ?_⟩
  · intro e he
    simp [find_valid_bids, he]
  · intro h
    simp [find_valid_bids, h]

theorem find_valid_bids_total_witness :
    find_valid_bids (fun _ => .error "unknown phase") sampleBidsRequest = .ok ⟨[]⟩ :=
  (find_valid_bids_total (fun _ => .error "unknown phase") sampleBidsRequest).2.1
    "unknown phase" rfl

/-- C6: `explain_scoring` fails exactly when the core delta explanation or the
step size cannot be computed from the parameters and decks; on success, its
`total_points` is the sum of `points()` over the decks of the request and its
`step_size` is `params.step_size(decks)`. Proved for arbitrary core scoring
functions. -/
theorem explain_scoring_spec
    (explain_level_deltas :
      GameScoringParameters → List Deck → Bool → Except String (List (Int × GameScoreResult)))
    (stepSize : GameScoringParameters → List Deck → Except String Nat)
    (req : ExplainScoringRequest) :
    ((∃ e, explain_scoring explain_level_deltas stepSize req = .error e) ↔
        (∃ e, explain_level_deltas req.params req.decks req.smaller_landlord_team_size
            = .error e) ∨
          ∃ e, stepSize req.params req.decks = .error e) ∧
      ∀ resp, explain_scoring explain_level_deltas stepSize req = .ok resp →
        resp.total_points = (req.decks.map Deck.points).sum ∧
          stepSize req.params req.decks = .ok resp.step_size := by
  cases hd : explain_level_deltas req.params req.decks req.smaller_landlord_team_size with
  | error e =>
    constructor
    · simp [explain_scoring, hd, Except.bind, Bind.bind]
    · intro resp h
      simp [explain_scoring, hd, Except.bind, Bind.bind] at h
  | ok deltas =>
    cases hss : stepSize req.params req.decks with
    | error e =>
      constructor
      · simp [explain_scoring, hd, hss, Except.bind, Bind.bind]
      · intro resp h
        simp [explain_scoring, hd, hss, Except.bind, Bind.bind] at h
    | ok n =>
      constructor
      · simp [explain_scoring, hd, hss, Except.bind, Bind.bind]
      · intro resp h
        simp only [explain_scoring, hd, hss, Except.bind, Bind.bind] at h
        injection h with h'
        subst h'
        exact ⟨rfl, rfl⟩

theorem explain_scoring_spec_witness :
    (⟨[], 100, 20⟩ : ExplainScoringResponse).total_points
        = (sampleScoringRequest.decks.map Deck.points).sum ∧
      (fun _ _ => (Except.ok 20 : Except String Nat)) sampleScoringRequest.params
          sampleScoringRequest.decks
        = .ok (⟨[], 100, 20⟩ : ExplainScoringResponse).step_size :=
  (explain_scoring_spec (fun _ _ _ => .ok []) (fun _ _ => .ok 20)
    sampleScoringRequest).2 ⟨[], 100, 20⟩ (by rfl)

/-- C7: the `can_play_cards` boundary response carries exactly the single
boolean `playable`, true iff the core legality check succeeds; the failure
reason is never surfaced — any two requests on which the core check agrees in
success/failure get identical responses. -/
theorem can_play_cards_boundary_spec (req req' : CanPlayCardsRequest) :
    can_play_cards_wasm req =
        ⟨(req.trick.can_play_cards req.id req.hands req.cards
            req.trick_draw_policy).isOk⟩ ∧
      ((can_play_cards_wasm req).playable = true ↔
        req.trick.can_play_cards req.id req.hands req.cards req.trick_draw_policy
          = .ok ()) ∧
      ((req.trick.can_play_cards req.id req.hands req.cards
            req.trick_draw_policy).isOk =
          (req'.trick.can_play_cards req'.id req'.hands req'.cards
            req'.trick_draw_policy).isOk →
        can_play_cards_wasm req = can_play_cards_wasm req') := by
  refine ⟨rfl, ?_, ?_⟩
  · simp only [can_play_cards_wasm]
    cases h : req.trick.can_play_cards req.id req.hands req.cards req.trick_draw_policy with
    | ok u =>
      cases u
      simp [Except.isOk, Except.toBool]
    | error e =>
      simp [Except.isOk, Except.toBool]
  · intro h
    simp only [can_play_cards_wasm, h]

theorem can_play_cards_boundary_spec_witness :
    can_play_cards_wasm sampleCanPlayMissing = can_play_cards_wasm sampleCanPlayEmptyLead :=
  (can_play_cards_boundary_spec sampleCanPlayMissing sampleCanPlayEmptyLead).2.2
    (by decide)

/-- C10 (code evaluated at the failing input): a call whose streaming-decoder
construction fails returns with the decoder slot empty, and the next call on
the empty slot hits the `take().unwrap()` panic — the slot is *not* refilled
on every return. -/
theorem zstd_decompress_slot_lost :
    (@zstd_decompress Unit (fun _ _ => .error "bad frame")
          (fun d => .ok ([], d)) (fun _ => .ok "") (some ()) []).2 = none ∧
      (@zstd_decompress Unit (fun _ _ => .error "bad frame")
          (fun d => .ok ([], d)) (fun _ => .ok "") none []).1 =
        .error "panicked at Option::unwrap on None" :=
  ⟨rfl, rfl⟩

end Shengji
